import Mathlib

/-!
Verification development for `cutvids.py` (repository phihag/cutvids).

Python strings are modelled as `List Char` (`Str`); Python `None`-able
integers as `Option Nat`; fallible code returns `Except Unit` (all Python
exception kinds — `AssertionError`, `AttributeError`, `IndexError`,
json decode errors — are collapsed into the single error value, since the
source never discriminates between them).  Python truthiness of an
optional integer (`None` and `0` are falsy) is `truthyN`.
-/

namespace Cutvids

/-- Strings of the modelled program: Python `str` as a list of characters. -/
abbrev Str := List Char

/-- Command: an argv list, as produced by `cutvid_commands`. -/
abbrev Cmd := List Str

/-- Coercion from Lean string literals into the `Str` model. -/
def str (s : String) : Str := s.data

/-- Python truthiness of an optional integer: `None` and `0` are falsy. -/
def truthyN : Option Nat → Bool
  | none => false
  | some n => !(n == 0)

/-- Map `some 0` to `none`; used to state the "zero is unspecified" policy. -/
def zeroToNone : Option Nat → Option Nat
  | none => none
  | some n => if n = 0 then none else some n

/-- Python `str.strip()`: drop leading and trailing whitespace. -/
def pyStrip (l : Str) : Str :=
  ((l.dropWhile Char.isWhitespace).reverse.dropWhile Char.isWhitespace).reverse

/-- Python `s.partition(sep)` for a one-character separator, keeping the
parts before and after the first occurrence; when `sep` does not occur the
whole string is the first part and the rest is empty, matching
`token, _, line = line.partition(c)`. -/
def pyPartition (sep : Char) : Str → Str × Str
  | [] => ([], [])
  | c :: rest =>
    if c = sep then ([], rest)
    else
      let p := pyPartition sep rest
      (c :: p.1, p.2)

/-- Python `s.split(sep)` for a one-character separator: always returns at
least one (possibly empty) field. -/
def splitChar (sep : Char) : Str → List Str
  | [] => [[]]
  | c :: rest =>
    if c = sep then [] :: splitChar sep rest
    else
      let r := splitChar sep rest
      (c :: r.headD []) :: r.tail

/-- Inverse of `splitChar`: interleave the separator between the fields. -/
def joinChar (sep : Char) : List Str → Str
  | [] => []
  | [f] => f
  | f :: g :: r => f ++ sep :: joinChar sep (g :: r)

/-- Nonempty all-digit string, the language of the regex field `[0-9]+`. -/
def isDigits (l : Str) : Bool := !l.isEmpty && l.all Char.isDigit

/-- Numeric value of a digit string, Python `int(...)` on such a string. -/
def digitsVal (l : Str) : Nat := l.foldl (fun a c => 10 * a + (c.toNat - 48)) 0

/-- Python `'%d' % n` for a non-negative integer. -/
def natStr (n : Nat) : Str := (toString n).data

/-- Python `'%d' % i` for a possibly negative integer. -/
def intStr (i : Int) : Str := (toString i).data

/-- Core language of the `parse_seconds` regex, before the end-anchor's
newline tolerance: one to three colon-separated nonempty digit fields
(`(?:(?:(H):)?(M):)?(S)` against the whole string), evaluated to
`H*3600 + M*60 + S`; anything else is a non-match (`none`). -/
def parse_seconds_core (core : Str) : Option (Option Nat) :=
  match splitChar ':' core with
  | [s] => if isDigits s then some (some (digitsVal s)) else none
  | [m, s] =>
      if isDigits m && isDigits s then some (some (60 * digitsVal m + digitsVal s)) else none
  | [h, m, s] =>
      if isDigits h && isDigits m && isDigits s then
        some (some (3600 * digitsVal h + 60 * digitsVal m + digitsVal s))
      else none
  | _ => none

/-- Model of `parse_seconds` (cutvids.py lines 33-44).  `'-'` maps to the
"unspecified" sentinel (`some none`).  The source matches the anchored regex
`(?:(?:(?P<hours>[0-9]+):)?(?P<minutes>[0-9]+):)?(?P<secs>[0-9]+)$` with
`re.match`.  Outside MULTILINE mode Python's `$` matches at the end of the
string AND just before a newline that ends the string, and the digit fields
can contain neither `':'` nor `'\n'`, so the regex language is exactly: one
to three colon-separated nonempty digit fields, optionally followed by one
trailing newline (e.g. `parse_seconds("123\n") == 123` in the source).
This is embedded by stripping one trailing `'\n'` before the core split on
`':'`.  A non-match makes the source raise (`m.group` on `None`), embedded
as `none`; `some (some n)` is a parsed second count. -/
def parse_seconds (token : Str) : Option (Option Nat) :=
  if token = str "-" then some none
  else if token.getLast? = some '\n' then parse_seconds_core token.dropLast
  else parse_seconds_core token

/-- Language of the time grammar `[[HH:]MM:]SS` with nonempty digit fields,
stated independently of the parser as an explicit decomposition. -/
def timeGrammar (l : Str) : Prop :=
  (isDigits l = true)
  ∨ (∃ m s, l = m ++ ':' :: s ∧ isDigits m = true ∧ isDigits s = true)
  ∨ (∃ h m s, l = h ++ ':' :: (m ++ ':' :: s)
      ∧ isDigits h = true ∧ isDigits m = true ∧ isDigits s = true)

/-- Decidable equality for `Except`, so concrete runs can be checked by `decide`. -/
instance {ε α : Type} [DecidableEq ε] [DecidableEq α] : DecidableEq (Except ε α) := fun x y =>
  match x, y with
  | .error a, .error b =>
      if h : a = b then .isTrue (by rw [h]) else .isFalse (by simp [h])
  | .ok a, .ok b =>
      if h : a = b then .isTrue (by rw [h]) else .isFalse (by simp [h])
  | .error _, .ok _ => .isFalse (by simp)
  | .ok _, .error _ => .isFalse (by simp)

/-- Model of the `parse_tokens` generator loop (cutvids.py lines 47-61),
made total with a fuel parameter counting loop iterations.  `none` means
the fuel ran out while the line was still nonempty — for the source this
is the only way an iteration fails to make progress, so `(∀ fuel, … = none)`
states that the Python loop never terminates on that line.
`some (.error ())` models the `assert '"' not in token` failure,
`some (.ok toks)` normal exhaustion of the `while line:` loop. -/
def parse_tokens_loop : Nat → Str → Option (Except Unit (List Str))
  | _, [] => some (.ok [])
  | 0, _ :: _ => none
  | fuel + 1, l =>
    let s := pyStrip l
    if s.take 1 = ['#'] then
      parse_tokens_loop fuel s
    else if s.take 1 = ['"'] then
      let p := pyPartition '"' s.tail
      (parse_tokens_loop fuel p.2).map (fun r => r.map (p.1 :: ·))
    else if s.take 1 = ['\''] then
      let p := pyPartition '\'' s.tail
      (parse_tokens_loop fuel p.2).map (fun r => r.map (p.1 :: ·))
    else
      let p := pyPartition ' ' s
      if p.1.contains '"' then some (.error ())
      else (parse_tokens_loop fuel p.2).map (fun r => r.map (p.1 :: ·))

/-- Segment record (cutvids.py lines 25-26); `none` bounds are Python `None`. -/
structure Segment where
  start : Option Nat
  end_ : Option Nat
deriving DecidableEq

/-- VideoTask record (cutvids.py lines 19-22). -/
structure VideoTask where
  input_files : List Str
  output_file : Str
  description : Option Str
  segments : List Segment
  boost_volume : Option Nat
  privacy : Option Str
  upload : Bool
deriving DecidableEq

/-- Entry of the `segments` list in the JSON extras: the source reads
`s['start']` and `s['end']` and hands them to `parse_seconds`, so both are
time strings. -/
structure SegmentIn where
  start : Str
  end_ : Str
deriving DecidableEq

/-- Decoded JSON extras object (token five of a task line).  JSON syntax
itself is parsed by Python's `json` library, an external collaborator; the
embedding works with the decoded object and takes the decoder as a
parameter.  Absent keys are the `.get` defaults of the source:
`upload` defaults to `True`, everything else to `None`. -/
structure ExtraData where
  privacy : Option Str := none
  description : Option Str := none
  segments : Option (List SegmentIn) := none
  upload : Bool := true
  boost_volume : Option Nat := none
deriving DecidableEq

/-- Lift a `parse_seconds` result into the task parser's error monad: a
regex non-match raises in the source (`AttributeError`), aborting the parse. -/
def liftTime (r : Option (Option Nat)) : Except Unit (Option Nat) :=
  match r with
  | none => .error ()
  | some v => .ok v

/-- Regex test `re.search(r'\.(?:mp4|webm|ogv)$', output_file)`
(cutvids.py line 73): does the name end in a recognized media extension? -/
def hasVideoExt (f : Str) : Bool :=
  (str ".mp4").isSuffixOf f || (str ".webm").isSuffixOf f || (str ".ogv").isSuffixOf f

/-- Model of the per-line body of `parse_video_tasks` from the `segments_in`
read on (cutvids.py lines 85-97): the consistency asserts against the legacy
positional `start`/`end` (Python truthiness: `None` and `0` pass the
`assert not start` / `assert not end`), the per-entry time parses, and the
collapse of the positional bounds into a one-element segment list. -/
def build_task (input_files : List Str) (output_file : Str)
    (start end_ : Option Nat) (extra : ExtraData) : Except Unit VideoTask :=
  match extra.segments with
  | some (s :: ss) =>
      if truthyN start then .error ()
      else if truthyN end_ then .error ()
      else
        match (s :: ss).mapM (fun si => do
            let a ← liftTime (parse_seconds si.start)
            let b ← liftTime (parse_seconds si.end_)
            pure (Segment.mk a b)) with
        | .error e => .error e
        | .ok segs =>
            .ok ⟨input_files, output_file, extra.description, segs,
                 extra.boost_volume, extra.privacy, extra.upload⟩
  | _ =>
      .ok ⟨input_files, output_file, extra.description, [Segment.mk start end_],
           extra.boost_volume, extra.privacy, extra.upload⟩

/-- Model of one task line (cutvids.py lines 69-97) given its token list:
the 2-to-5 token count assert, splitting token one on `'+'`, the output
extension normalization, positional `start`/`end` parses, the JSON-extras
decode (`jsonLoads` parameter, since JSON decoding is external), and
`build_task`. -/
def parse_task_line (jsonLoads : Str → Except Unit ExtraData)
    (tokens : List Str) : Except Unit VideoTask :=
  if tokens.length < 2 || tokens.length > 5 then .error ()
  else
    let input_files := splitChar '+' (tokens.headD [])
    let out0 := tokens.getD 1 []
    let output_file := if hasVideoExt out0 then out0 else out0 ++ str ".mp4"
    match (if tokens.length < 3 then .ok none
           else liftTime (parse_seconds (tokens.getD 2 []))) with
    | .error e => .error e
    | .ok start =>
      match (if tokens.length < 4 then .ok none
             else liftTime (parse_seconds (tokens.getD 3 []))) with
      | .error e => .error e
      | .ok end_ =>
        match (if tokens.length ≥ 5 then jsonLoads (tokens.getD 4 [])
               else .ok {}) with
        | .error e => .error e
        | .ok extra => build_task input_files output_file start end_ extra

/-- Model of the `parse_video_tasks` line loop (cutvids.py lines 64-97):
a line that is empty after stripping or whose raw text begins with `#` is
`continue`d over (NOT an end-of-file marker); any other line is tokenized
(fuel-bounded, `none` when the tokenizer diverges) and parsed into a task.
Errors abort the whole run, as in the source. -/
def parse_video_tasks (jsonLoads : Str → Except Unit ExtraData) (fuel : Nat) :
    List Str → Option (Except Unit (List VideoTask))
  | [] => some (.ok [])
  | line :: rest =>
    if pyStrip line = [] || line.take 1 = ['#'] then
      parse_video_tasks jsonLoads fuel rest
    else
      match parse_tokens_loop fuel line with
      | none => none
      | some (.error _) => some (.error ())
      | some (.ok tokens) =>
        match parse_task_line jsonLoads tokens with
        | .error _ => some (.error ())
        | .ok vt =>
          (parse_video_tasks jsonLoads fuel rest).map (fun r => r.map (vt :: ·))

/-- JSON decoder stub that rejects everything; concrete test lines below
carry no fifth token, so it is never consulted. -/
def noJson : Str → Except Unit ExtraData := fun _ => .error ()

/-- Python `os.path.join(outdir, name)` for a relative `name`. -/
def pathJoin (outdir name : Str) : Str := outdir ++ '/' :: name

/-- Extension part of `os.path.splitext` (cutvids.py line 105): the final
dot-suffix of the name, where dots that are part of the leading all-dot run
do not start an extension. -/
def extOf (f : Str) : Str :=
  let body := f.drop ((f.takeWhile (fun c => c = '.')).length)
  if body.contains '.' then
    '.' :: (body.reverse.takeWhile (fun c => c ≠ '.')).reverse
  else []

/-- Result of one compiler invocation: the yielded commands in order, the
temp-registry (`tmpfiles`) contents in registration order, and the concat
list files written directly (path, content). -/
structure PlanResult where
  commands : List Cmd
  tmpfiles : List Str
  fileWrites : List (Str × Str)
deriving DecidableEq

/-- Content of a generated concat list (cutvids.py lines 109-110, 218-219):
`file '<path>'` per input joined by newlines, plus a blank terminator line. -/
def concat_list_content (in_fns : List Str) : Str :=
  (List.intercalate (str "\n") (in_fns.map (fun infn => str "file '" ++ infn ++ ['\'']))) ++
    str "\n\n"

/-- Model of the inner `_concat_cmd` helper (cutvids.py lines 107-121):
returns the registered concat-list path, the file write, and the ffmpeg
concat command whose output argument is `out_fn`. -/
def _concat_cmd (in_fns : List Str) (out_fn : Str) : Str × (Str × Str) × Cmd :=
  let concat_fn := out_fn ++ str ".concat_list.txt"
  (concat_fn, (concat_fn, concat_list_content in_fns),
   [str "ffmpeg", str "-y", str "-safe", str "0", str "-f", str "concat",
    str "-i", concat_fn, str "-c", str "copy", out_fn])

/-- Options list `ffmpeg_opts` built for one segment of the multi-segment loop
(cutvids.py lines 137-144).  This path tests `is not None`, NOT truthiness,
so a zero bound is honored; the `assert s.end > s.start` (line 141) is the
`.error` case. -/
def segment_opts (s : Segment) : Except Unit (List Str)  :=
  match s.start with
  | some st =>
      match s.end_ with
      | some en =>
          if en > st then .ok [str "-ss", natStr st, str "-t", natStr (en - st)]
          else .error ()
      | none => .ok [str "-ss", natStr st]
  | none =>
      match s.end_ with
      | some en => .ok [str "-t", natStr en]
      | none => .ok []

/-- Python `input_files[0]`, raising `IndexError` on an empty list. -/
def idx0 (l : List Str) : Except Unit Str :=
  match l with
  | [] => .error ()
  | a :: _ => .ok a

/-- Python `input_files[-1]`, raising `IndexError` on an empty list. -/
def idxLast (l : List Str) : Except Unit Str :=
  match l.getLast? with
  | none => .error ()
  | some a => .ok a

/-- Per-segment extraction loop of the multi-segment path (cutvids.py lines
133-151).  Returns the extraction commands, the tmpfiles registered (each
`segment_fn` is appended TWICE in the source, lines 135 and 146), the
`segment_files` list, and the value the loop variable `ffmpeg_opts` holds
after the loop (it leaks into the later filter command, line 163).  The
extraction input is `input_files[0]` — the first ORIGINAL input — exactly
as in the source (line 148). -/
def segment_loop (input0 output_fn ext : Str) (opts0 : List Str) (i : Nat) :
    List Segment → Except Unit (List Cmd × List Str × List Str × List Str)
  | [] => .ok ([], [], [], opts0)
  | s :: rest =>
    let segment_fn := output_fn ++ str ".segment" ++ natStr i ++ ext
    match segment_opts s with
    | .error e => .error e
    | .ok opts =>
      match segment_loop input0 output_fn ext opts (i + 1) rest with
      | .error e => .error e
      | .ok (cmds, tmps, files, lastOpts) =>
        .ok (([str "ffmpeg", str "-i", input0, str "-y"] ++ opts ++
               [str "-c", str "copy", segment_fn]) :: cmds,
             segment_fn :: segment_fn :: tmps,
             segment_fn :: files, lastOpts)

/-- Multi-segment path of `cutvid_commands` (cutvids.py lines 124-169).
With several inputs the whole-input concat into `output_fn + '.whole' + ext`
is emitted and its target registered, but — as in the source, where the
variable `inf` is never read again — the extraction commands still read
`input_files[0]`.  The audio-gain block renames `.part` to
`.filter_input`, re-emits a filter command (reusing the leaked
`ffmpeg_opts`) into `.part`, and the final `mv` publishes `.part` at
`output_fn`. -/
def multi_segment_cmds (input_files : List Str) (output_fn ext : Str)
    (bv : Option Nat) (segments : List Segment) : Except Unit PlanResult :=
  match idx0 input_files with
  | .error e => .error e
  | .ok i0 =>
    let pre :=
      if input_files.length > 1 then
        let inf := output_fn ++ str ".whole" ++ ext
        let cc := _concat_cmd input_files inf
        ([cc.2.2], [inf, cc.1], [cc.2.1])
      else (([] : List Cmd), ([] : List Str), ([] : List (Str × Str)))
    match segment_loop i0 output_fn ext [] 0 segments with
    | .error e => .error e
    | .ok (segCmds, segTmps, segFiles, lastOpts) =>
      let part := output_fn ++ str ".part" ++ ext
      let mc := _concat_cmd segFiles part
      if truthyN bv then
        let fi := output_fn ++ str ".filter_input" ++ ext
        .ok ⟨pre.1 ++ segCmds ++ [mc.2.2] ++
              [[str "mv", str "--", part, fi],
               [str "ffmpeg", str "-i", fi, str "-y"] ++ lastOpts ++
                 [str "-c:v", str "copy", str "-af",
                  str "volume=" ++ natStr (bv.getD 0), part]] ++
              [[str "mv", str "--", part, output_fn]],
             pre.2.1 ++ segTmps ++ [mc.1, fi],
             pre.2.2 ++ [mc.2.1]⟩
      else
        .ok ⟨pre.1 ++ segCmds ++ [mc.2.2] ++ [[str "mv", str "--", part, output_fn]],
             pre.2.1 ++ segTmps ++ [mc.1],
             pre.2.2 ++ [mc.2.1]⟩

/-- Single-segment paths of `cutvid_commands` (cutvids.py lines 171-240):
the `assert not vt.boost_volume`, the fast path (one input, truthy start
AND end: one `-noaccurate_seek` stream copy into `.part`, no temporaries),
and the general path (head-trim when `start` is truthy, tail-trim when
`end` is truthy, then `cp` or a concat through the `mkstempName` list
file into `.part`), each followed by the final `mv` to `output_fn`.
All start/end accesses here are Python-truthy guarded (`if start:`), so a
zero bound behaves like an absent one. -/
def single_segment_cmds (input_files : List Str) (output_fn ext : Str)
    (bv : Option Nat) (st en : Option Nat) (mkstempName : Str) :
    Except Unit PlanResult :=
  if truthyN bv then .error ()
  else if input_files.length == 1 && truthyN st && truthyN en then
    let part := output_fn ++ str ".part" ++ ext
    .ok ⟨[[str "ffmpeg", str "-noaccurate_seek", str "-i", input_files.headD [],
           str "-y", str "-ss", natStr (st.getD 0), str "-c", str "copy",
           str "-t", intStr ((en.getD 0 : Int) - (st.getD 0 : Int)),
           str "-avoid_negative_ts", str "make_zero", part],
          [str "mv", str "--", part, output_fn]], [], []⟩
  else
    let step1 : Except Unit (List Cmd × List Str × List Str) :=
      if truthyN st then
        match idx0 input_files with
        | .error e => .error e
        | .ok i0 =>
          let tmpfile := output_fn ++ str ".first_part" ++ ext
          .ok ([[str "ffmpeg", str "-i", i0, str "-y", str "-ss",
                 natStr (st.getD 0), str "-c", str "copy", tmpfile]],
               [tmpfile], input_files.set 0 tmpfile)
      else .ok ([], [], input_files)
    match step1 with
    | .error e => .error e
    | .ok (cmds1, tmps1, files1) =>
      let step2 : Except Unit (List Cmd × List Str × List Str) :=
        if truthyN en then
          match idxLast files1 with
          | .error e => .error e
          | .ok ilast =>
            let tmpfile := output_fn ++ str ".end_part" ++ ext
            .ok ([[str "ffmpeg", str "-i", ilast, str "-y", str "-t",
                   natStr (en.getD 0), str "-c", str "copy", tmpfile]],
                 [tmpfile], files1.set (files1.length - 1) tmpfile)
        else .ok ([], [], files1)
      match step2 with
      | .error e => .error e
      | .ok (cmds2, tmps2, files2) =>
        let part := output_fn ++ str ".part" ++ ext
        if files2.length == 1 then
          .ok ⟨cmds1 ++ cmds2 ++
                [[str "cp", str "--", files2.headD [], part],
                 [str "mv", str "--", part, output_fn]],
               tmps1 ++ tmps2, []⟩
        else
          .ok ⟨cmds1 ++ cmds2 ++
                [[str "ffmpeg", str "-y", str "-safe", str "0", str "-f",
                  str "concat", str "-i", mkstempName, str "-c", str "copy", part],
                 [str "mv", str "--", part, output_fn]],
               tmps1 ++ tmps2 ++ [mkstempName],
               [(mkstempName, concat_list_content files2)]⟩

/-- Model of `cutvid_commands` (cutvids.py lines 100-240).  `ffind` stands
for `find_file(indir, ·)` (file discovery is an external collaborator),
`mkstempName` for the random name `tempfile.mkstemp` picks in the
single-segment multi-input branch.  The result gathers the yielded
commands in order and the temp registry. -/
def cutvid_commands (vt : VideoTask) (ffind : Str → Str) (outdir : Str)
    (mkstempName : Str) : Except Unit PlanResult :=
  let input_files := vt.input_files.map ffind
  let output_fn := pathJoin outdir vt.output_file
  let ext := extOf vt.output_file
  if vt.segments.length > 1 then
    multi_segment_cmds input_files output_fn ext vt.boost_volume vt.segments
  else
    match vt.segments with
    | [] => .error ()
    | s0 :: _ =>
      single_segment_cmds input_files output_fn ext vt.boost_volume
        s0.start s0.end_ mkstempName

/-- Cleanup pass of the `finally` block (cutvids.py lines 230-236) over a
temp-registry list: `os.remove` each path in order; removing an absent path
raises `ENOENT`, which is swallowed; a present path either disappears or —
when `removeFails` marks it — raises a different `OSError`, which is
propagated, aborting the remaining removals.  The file system is the
predicate of present paths. -/
def cleanup_tmpfiles (removeFails : Str → Bool) :
    List Str → (Str → Bool) → Except Unit (Str → Bool)
  | [], fs => .ok fs
  | p :: rest, fs =>
    if fs p then
      if removeFails p then .error ()
      else cleanup_tmpfiles removeFails rest (fun q => if q = p then false else fs q)
    else cleanup_tmpfiles removeFails rest fs

/-- Example file finder used by the concrete runs: basename under `/in`. -/
def ffindEx : Str → Str := fun f => str "/in/" ++ f

/-- Example destination directory. -/
def outdirEx : Str := str "/out"

/-- Example `tempfile.mkstemp` pick. -/
def mkEx : Str := str "/out/TMPRANDOM"

/-- A command "writes only to a temporary": its last argument — the output
path of every external command the compiler emits (`ffmpeg` output, `cp`
and `mv` destination) — is the destination path extended by a nonempty
suffix. -/
def writes_only_tmp (output_fn : Str) (c : Cmd) : Prop :=
  ∃ suf, suf ≠ [] ∧ c.getLast? = some (output_fn ++ suf)

/- Concrete sanity checks of the embedding against hand-traced runs
of the source. -/
example : parse_seconds (str "-") = some none := by decide
example : parse_seconds (str "123") = some (some 123) := by decide
example : parse_seconds (str "1:01:40") = some (some 3700) := by decide
example : parse_seconds (str "1:2:3:4") = none := by decide
example : parse_seconds (str "12:34") = some (some 754) := by decide
example : parse_seconds (str "") = none := by decide
example : parse_seconds (str "1:2:") = none := by decide
example : parse_seconds (str "123\n") = some (some 123) := by decide
example : parse_seconds (str "12:3\n") = some (some 723) := by decide
example : parse_seconds (str "123\n\n") = none := by decide
example : parse_seconds (str "\n") = none := by decide
example : parse_seconds (str "-\n") = none := by decide

example : parse_tokens_loop 10 (str "a b c") = some (.ok [str "a", str "b", str "c"]) := by decide
example : parse_tokens_loop 10 (str "a 'b c' d") =
    some (.ok [str "a", str "b c", str "d"]) := by decide
example : parse_tokens_loop 20 (str "a #b") = none := by decide

example : parse_video_tasks noJson 20 [str "a.mp4 out"] =
    some (.ok [⟨[str "a.mp4"], str "out.mp4", none, [⟨none, none⟩], none, none, true⟩]) := by
  decide
example : parse_video_tasks noJson 20 [str "a.mp4+b.mp4 out.webm 5 1:40"] =
    some (.ok [⟨[str "a.mp4", str "b.mp4"], str "out.webm", none,
      [⟨some 5, some 100⟩], none, none, true⟩]) := by
  decide
example : parse_video_tasks noJson 20 [str "# comment", str "a.mp4 out"] =
    some (.ok [⟨[str "a.mp4"], str "out.mp4", none, [⟨none, none⟩], none, none, true⟩]) := by
  decide

example : extOf (str "v.mp4") = str ".mp4" := by decide
example : extOf (str "noext") = str "" := by decide
example : extOf (str "a.b.ogv") = str ".ogv" := by decide

theorem splitChar_ne_nil (sep : Char) (l : Str) : splitChar sep l ≠ [] := by
  cases l with
  | nil => simp [splitChar]
  | cons c rest => simp only [splitChar]; split <;> simp

theorem joinChar_splitChar (sep : Char) (l : Str) :
    joinChar sep (splitChar sep l) = l := by
  induction l with
  | nil => rfl
  | cons c rest ih =>
    obtain ⟨f, r, hR⟩ := List.exists_cons_of_ne_nil (splitChar_ne_nil sep rest)
    simp only [splitChar]
    split
    · rename_i hc
      rw [hR]; rw [hR] at ih
      simp only [joinChar]
      rw [ih, hc]
      rfl
    · rw [hR]; rw [hR] at ih
      simp only [List.headD, List.tail]
      cases r with
      | nil => simpa only [joinChar] using congrArg (c :: ·) ih
      | cons g r' =>
        simp only [joinChar] at ih ⊢
        rw [List.cons_append, ih]

theorem splitChar_no_sep (sep : Char) (a : Str) (h : ∀ c ∈ a, ¬ c = sep) :
    splitChar sep a = [a] := by
  induction a with
  | nil => rfl
  | cons c rest ih =>
    have hc : ¬ c = sep := h c (by simp)
    have hr := ih (fun x hx => h x (by simp [hx]))
    simp only [splitChar, if_neg hc, hr]
    rfl

theorem splitChar_append (sep : Char) (a b : Str) (h : ∀ c ∈ a, ¬ c = sep) :
    splitChar sep (a ++ sep :: b) = a :: splitChar sep b := by
  induction a with
  | nil => simp [splitChar]
  | cons c rest ih =>
    have hc : ¬ c = sep := h c (by simp)
    have hr := ih (fun x hx => h x (by simp [hx]))
    have hcons : (c :: rest) ++ sep :: b = c :: (rest ++ sep :: b) := rfl
    rw [hcons]
    simp only [splitChar, if_neg hc, hr]
    rfl

theorem isDigits_no_colon (a : Str) (h : isDigits a = true) :
    ∀ c ∈ a, ¬ c = ':' := by
  intro c hc hceq
  have hall := (Bool.and_eq_true _ _ |>.mp h).2
  have := (List.all_eq_true.mp hall) c hc
  subst hceq
  simp [Char.isDigit] at this

theorem isDigits_ne_nil (a : Str) (h : isDigits a = true) : a ≠ [] := by
  intro hnil
  subst hnil
  simp [isDigits, List.isEmpty] at h

theorem isDigits_ne_dash (a : Str) (h : isDigits a = true) : a ≠ str "-" := by
  intro heq
  subst heq
  have hall := (Bool.and_eq_true _ _ |>.mp h).2
  have hd := (List.all_eq_true.mp hall) '-' (by simp [str])
  simp [Char.isDigit] at hd

theorem digits_colon_ne_dash (m x : Str) (hm : isDigits m = true) :
    m ++ ':' :: x ≠ str "-" := by
  obtain ⟨c, m', rfl⟩ := List.exists_cons_of_ne_nil (isDigits_ne_nil m hm)
  have hdash : str "-" = ['-'] := rfl
  rw [hdash, List.cons_append]
  intro heq
  simp at heq

theorem parse_seconds_core_digits (s : Str) (hs : isDigits s = true) :
    parse_seconds_core s = some (some (digitsVal s)) := by
  simp only [parse_seconds_core, splitChar_no_sep ':' s (isDigits_no_colon s hs)]
  simp [hs]

theorem parse_seconds_core_ms (m s : Str) (hm : isDigits m = true)
    (hs : isDigits s = true) :
    parse_seconds_core (m ++ ':' :: s) = some (some (60 * digitsVal m + digitsVal s)) := by
  simp only [parse_seconds_core, splitChar_append ':' m s (isDigits_no_colon m hm),
    splitChar_no_sep ':' s (isDigits_no_colon s hs)]
  simp [hm, hs]

theorem parse_seconds_core_hms (h m s : Str) (hh : isDigits h = true)
    (hm : isDigits m = true) (hs : isDigits s = true) :
    parse_seconds_core (h ++ ':' :: (m ++ ':' :: s)) =
      some (some (3600 * digitsVal h + 60 * digitsVal m + digitsVal s)) := by
  simp only [parse_seconds_core,
    splitChar_append ':' h (m ++ ':' :: s) (isDigits_no_colon h hh),
    splitChar_append ':' m s (isDigits_no_colon m hm),
    splitChar_no_sep ':' s (isDigits_no_colon s hs)]
  simp [hh, hm, hs]

theorem parse_seconds_core_none (token : Str) (hgram : ¬ timeGrammar token) :
    parse_seconds_core token = none := by
  have hjoin := joinChar_splitChar ':' token
  simp only [parse_seconds_core]
  rcases hsp : splitChar ':' token with _ | ⟨f1, _ | ⟨f2, _ | ⟨f3, _ | ⟨f4, tl⟩⟩⟩⟩
  · exact absurd hsp (splitChar_ne_nil ':' token)
  · rw [hsp] at hjoin
    simp only [joinChar] at hjoin
    by_cases hd : isDigits f1 = true
    · exact absurd (Or.inl (hjoin ▸ hd)) hgram
    · simp [hd]
  · rw [hsp] at hjoin
    simp only [joinChar] at hjoin
    by_cases hd1 : isDigits f1 = true
    · by_cases hd2 : isDigits f2 = true
      · exact absurd (Or.inr (Or.inl ⟨f1, f2, hjoin.symm, hd1, hd2⟩)) hgram
      · simp [hd1, hd2]
    · simp [hd1]
  · rw [hsp] at hjoin
    simp only [joinChar] at hjoin
    by_cases hd1 : isDigits f1 = true
    · by_cases hd2 : isDigits f2 = true
      · by_cases hd3 : isDigits f3 = true
        · exact absurd (Or.inr (Or.inr ⟨f1, f2, f3, hjoin.symm, hd1, hd2, hd3⟩)) hgram
        · simp [hd1, hd2, hd3]
      · simp [hd1, hd2]
    · simp [hd1]
  · rfl

theorem parse_seconds_eq_core (token : Str) (htok : token ≠ str "-")
    (hnl : token.getLast? ≠ some '\n') :
    parse_seconds token = parse_seconds_core token := by
  simp only [parse_seconds, if_neg htok, if_neg hnl]

theorem parse_seconds_eq_core_dropLast (token : Str) (htok : token ≠ str "-")
    (hnl : token.getLast? = some '\n') :
    parse_seconds token = parse_seconds_core token.dropLast := by
  simp only [parse_seconds, if_neg htok, if_pos hnl]

theorem isDigits_getLast_ne_newline (a : Str) (ha : isDigits a = true) :
    a.getLast? ≠ some '\n' := by
  intro h
  have hmem : '\n' ∈ a := by
    have h2 := List.dropLast_append_getLast? '\n' (Option.mem_def.mpr h)
    rw [← h2]
    exact List.mem_append.mpr (Or.inr (by simp))
  have hall := (Bool.and_eq_true _ _ |>.mp ha).2
  have := (List.all_eq_true.mp hall) '\n' hmem
  simp [Char.isDigit] at this

theorem getLast?_append_colon (x s : Str) (hs : s ≠ []) :
    (x ++ ':' :: s).getLast? = s.getLast? := by
  rw [List.getLast?_append_cons]
  cases s with
  | nil => exact absurd rfl hs
  | cons c s' => exact List.getLast?_cons_cons

/-- C9 counterexample: `"123\n"` is outside the `[[HH:]MM:]SS` grammar,
yet the source returns `123` on it — Python's `$` also matches just before
a trailing newline — so the claim that every string not matching the
grammar fails is false of the program. -/
theorem claim_C9_counterexample :
    parse_seconds (str "123\n") = some (some 123) ∧ ¬ timeGrammar (str "123\n") := by
  refine ⟨by decide, ?_⟩
  rintro (h | ⟨m, s, heq, hm, hs⟩ | ⟨h', m, s, heq, hh, hm, hs⟩)
  · exact absurd h (by decide)
  · have hc : ':' ∈ str "123\n" := by
      rw [heq]; exact List.mem_append.mpr (Or.inr (by simp))
    exact absurd hc (by decide)
  · have hc : ':' ∈ str "123\n" := by
      rw [heq]; exact List.mem_append.mpr (Or.inr (by simp))
    exact absurd hc (by decide)

/-- C9 amended: `parse_seconds` returns the "unspecified" value for `"-"`;
on every string of the grammar `[[HH:]MM:]SS` with nonempty digit fields it
returns `HH*3600 + MM*60 + SS` (so `"123"` gives `123` and `"1:01:40"`
gives `3700`); appending one trailing newline to any other input does not
change the result (Python's `$` end-anchor semantics), so such strings also
parse (`"123\n"` gives `123`); and every string outside the
newline-tolerant grammar — neither `"-"`, nor a grammar string, nor a
grammar string plus one trailing newline, e.g. `"1:2:3:4"` — fails (the
source's raise on the regex non-match, the spec's `MalformedTimeError`). -/
theorem claim_C9_amended :
    parse_seconds (str "-") = some none
    ∧ (∀ s, isDigits s = true → parse_seconds s = some (some (digitsVal s)))
    ∧ (∀ m s, isDigits m = true → isDigits s = true →
        parse_seconds (m ++ ':' :: s) = some (some (60 * digitsVal m + digitsVal s)))
    ∧ (∀ h m s, isDigits h = true → isDigits m = true → isDigits s = true →
        parse_seconds (h ++ ':' :: (m ++ ':' :: s)) =
          some (some (3600 * digitsVal h + 60 * digitsVal m + digitsVal s)))
    ∧ (∀ t, t ≠ str "-" → t.getLast? ≠ some '\n' →
        parse_seconds (t ++ ['\n']) = parse_seconds t)
    ∧ parse_seconds (str "123") = some (some 123)
    ∧ parse_seconds (str "1:01:40") = some (some 3700)
    ∧ parse_seconds (str "123\n") = some (some 123)
    ∧ (∀ token, token ≠ str "-" → ¬ timeGrammar token →
        ¬ (∃ core, token = core ++ ['\n'] ∧ timeGrammar core) →
        parse_seconds token = none)
    ∧ parse_seconds (str "1:2:3:4") = none := by
  refine ⟨by decide, ?_, ?_, ?_, ?_, by decide, by decide, by decide, ?_, by decide⟩
  · intro s hs
    rw [parse_seconds_eq_core s (isDigits_ne_dash s hs) (isDigits_getLast_ne_newline s hs)]
    exact parse_seconds_core_digits s hs
  · intro m s hm hs
    rw [parse_seconds_eq_core _ (digits_colon_ne_dash m s hm) ?_]
    · exact parse_seconds_core_ms m s hm hs
    · rw [getLast?_append_colon m s (isDigits_ne_nil s hs)]
      exact isDigits_getLast_ne_newline s hs
  · intro h m s hh hm hs
    rw [parse_seconds_eq_core _ (digits_colon_ne_dash h (m ++ ':' :: s) hh) ?_]
    · exact parse_seconds_core_hms h m s hh hm hs
    · rw [getLast?_append_colon h (m ++ ':' :: s) (by simp),
        getLast?_append_colon m s (isDigits_ne_nil s hs)]
      exact isDigits_getLast_ne_newline s hs
  · intro t ht hnl
    have htne : t ++ ['\n'] ≠ str "-" := by
      intro heq
      have h1 := congrArg List.getLast? heq
      rw [List.getLast?_concat] at h1
      have h2 : (str "-").getLast? = some '-' := rfl
      rw [h2] at h1
      injection h1 with h3
      exact absurd h3 (by decide)
    rw [parse_seconds_eq_core_dropLast _ htne (List.getLast?_concat t),
      List.dropLast_concat, parse_seconds_eq_core t ht hnl]
  · intro token htok hg hgnl
    by_cases hnl : token.getLast? = some '\n'
    · have hne : token ≠ [] := by
        intro h0
        rw [h0] at hnl
        exact absurd hnl (by simp)
      have hsplit : token = token.dropLast ++ ['\n'] := by
        have hchar := List.getLast?_eq_getLast_of_ne_nil hne
        rw [hnl] at hchar
        injection hchar with hchar
        conv_lhs => rw [← List.dropLast_append_getLast hne]
        rw [hchar]
      rw [parse_seconds_eq_core_dropLast token htok hnl]
      apply parse_seconds_core_none
      intro hgcore
      exact hgnl ⟨token.dropLast, hsplit, hgcore⟩
    · rw [parse_seconds_eq_core token htok hnl]
      exact parse_seconds_core_none token hg

/-- Witness for the amended C9: the general `[[HH:]MM:]SS` conjunct applied
at the concrete fields of `"1:01:40"`. -/
theorem claim_C9_witness :
    parse_seconds (['1'] ++ ':' :: (['0', '1'] ++ ':' :: ['4', '0'])) =
      some (some (3600 * digitsVal ['1'] + 60 * digitsVal ['0', '1'] + digitsVal ['4', '0'])) :=
  claim_C9_amended.2.2.2.1 ['1'] ['0', '1'] ['4', '0'] (by decide) (by decide) (by decide)

/-- Looping on a mid-line comment: once the remaining line starts with `#`,
stripping leaves it unchanged and the `continue` re-enters the loop with the
same line, so no amount of fuel completes the tokenization of `"#b"`. -/
theorem parse_tokens_comment_diverges :
    ∀ fuel, parse_tokens_loop fuel ['#', 'b'] = none := by
  intro fuel
  induction fuel with
  | zero => rfl
  | succ n ih => exact ih

/-- C10 (code behavior at the failing input): tokenizing the line `a #b`
never finishes — the source's `parse_tokens` yields `a` and then loops
forever on the `#`-prefixed remainder, because its `continue` branch does
not shorten the line.  In the fuel model even 1000 loop iterations leave
the line nonempty. -/
theorem claim_C10_code_behavior : parse_tokens_loop 1000 (str "a #b") = none := by
  have h1 : parse_tokens_loop 1000 (str "a #b") =
      (parse_tokens_loop 999 ['#', 'b']).map (fun r => r.map (['a'] :: ·)) := rfl
  rw [h1, parse_tokens_comment_diverges 999]
  rfl

/-- C3 counterexample: a file whose second line is a comment and whose
third line holds a task.  The claim says parsing stops at the comment line
(so only one task); the code produces BOTH tasks, because such lines are
`continue`d over (cutvids.py line 68), not treated as end-of-file. -/
theorem claim_C3_counterexample :
    parse_video_tasks noJson 20 [str "a.mp4 one", str "# comment", str "b.mp4 two"] =
      some (.ok
        [⟨[str "a.mp4"], str "one.mp4", none, [⟨none, none⟩], none, none, true⟩,
         ⟨[str "b.mp4"], str "two.mp4", none, [⟨none, none⟩], none, none, true⟩]) := by
  decide

/-- C3 amended: a line that is empty after trimming or begins with `#` is
skipped — parsing continues with the remaining lines unchanged, so tasks on
later lines are still produced. -/
theorem claim_C3_amended (jsonLoads : Str → Except Unit ExtraData) (fuel : Nat)
    (line : Str) (lines : List Str)
    (h : pyStrip line = [] ∨ line.take 1 = ['#']) :
    parse_video_tasks jsonLoads fuel (line :: lines) =
      parse_video_tasks jsonLoads fuel lines := by
  rcases h with h | h <;> simp [parse_video_tasks, h]

/-- Witness for the amended C3 at a concrete comment line. -/
theorem claim_C3_witness :
    parse_video_tasks noJson 20 [str "# c", str "a.mp4 out"] =
      parse_video_tasks noJson 20 [str "a.mp4 out"] :=
  claim_C3_amended noJson 20 (str "# c") [str "a.mp4 out"] (Or.inr (by decide))

/-- C4 (code behavior at the failing input): two inputs, two segments.
Command 0 concatenates both inputs into the whole-input temporary
`/out/out.mp4.whole.mp4`, but command 1 — the first extraction — reads
`-i /in/a.mp4`, the first ORIGINAL input, not that temporary: the source
computes `inf` and never uses it (cutvids.py lines 126-130 vs 148). -/
theorem claim_C4_code_behavior :
    (cutvid_commands ⟨[str "a.mp4", str "b.mp4"], str "out.mp4", none,
        [⟨none, some 5⟩, ⟨some 5, none⟩], none, none, true⟩ ffindEx outdirEx mkEx).map
      (fun p => (p.commands.getD 0 [], p.commands.getD 1 [])) =
    .ok ([str "ffmpeg", str "-y", str "-safe", str "0", str "-f", str "concat",
          str "-i", str "/out/out.mp4.whole.mp4.concat_list.txt", str "-c", str "copy",
          str "/out/out.mp4.whole.mp4"],
         [str "ffmpeg", str "-i", str "/in/a.mp4", str "-y", str "-t", str "5",
          str "-c", str "copy", str "/out/out.mp4.segment0.mp4"]) := by
  decide

/-- C5 counterexample: a single-segment task with `start = 10 > end = 5`
compiles WITHOUT error on the fast path, emitting `-t -5`; the claim that
every compilation path rejects `end <= start` is false. -/
theorem claim_C5_counterexample :
    cutvid_commands ⟨[str "a.mp4"], str "out.mp4", none, [⟨some 10, some 5⟩],
        none, none, true⟩ ffindEx outdirEx mkEx =
    .ok ⟨[[str "ffmpeg", str "-noaccurate_seek", str "-i", str "/in/a.mp4", str "-y",
           str "-ss", str "10", str "-c", str "copy", str "-t", str "-5",
           str "-avoid_negative_ts", str "make_zero", str "/out/out.mp4.part.mp4"],
          [str "mv", str "--", str "/out/out.mp4.part.mp4", str "/out/out.mp4"]],
         [], []⟩ := by
  decide

/-- Rejection in `segment_opts` of a segment with both bounds set and `end ≤ start`
(the `assert s.end > s.start`, cutvids.py line 141). -/
theorem segment_opts_reject (s : Segment) (st en : Nat)
    (hst : s.start = some st) (hen : s.end_ = some en) (hle : en ≤ st) :
    segment_opts s = .error () := by
  simp [segment_opts, hst, hen, Nat.not_lt.mpr hle]

/-- An erroring segment anywhere in the list makes the whole loop error. -/
theorem segment_loop_error (input0 output_fn ext : Str) (s : Segment)
    (hserr : segment_opts s = .error ()) :
    ∀ (segs : List Segment) (opts0 : List Str) (i : Nat), s ∈ segs →
      segment_loop input0 output_fn ext opts0 i segs = .error () := by
  intro segs
  induction segs with
  | nil => intro _ _ h; simp at h
  | cons a rest ih =>
    intro opts0 i hmem
    rcases List.mem_cons.mp hmem with rfl | hmem'
    · simp [segment_loop, hserr]
    · simp only [segment_loop]
      cases ha : segment_opts a with
      | error e => rfl
      | ok opts => simp [ih opts (i + 1) hmem']

/-- The multi-segment path propagates a rejected segment. -/
theorem multi_segment_cmds_error (input_files : List Str) (output_fn ext : Str)
    (bv : Option Nat) (segments : List Segment) (s : Segment) (hs : s ∈ segments)
    (hserr : segment_opts s = .error ()) :
    multi_segment_cmds input_files output_fn ext bv segments = .error () := by
  simp only [multi_segment_cmds]
  cases h0 : idx0 input_files with
  | error e => cases e; rfl
  | ok i0 =>
    simp [segment_loop_error i0 output_fn ext s hserr segments [] 0 hs]

/-- C5 amended: the compiler rejects `end ≤ start` (with both bounds set)
in the multi-segment path — via the extraction-options assert — but NOT in
the single-segment paths, which perform no such check (see the
counterexample, where the fast path emits a negative `-t`). -/
theorem claim_C5_amended (vt : VideoTask) (ffind : Str → Str) (outdir mk : Str)
    (s : Segment) (hs : s ∈ vt.segments) (hlen : vt.segments.length > 1)
    (st en : Nat) (hst : s.start = some st) (hen : s.end_ = some en) (hle : en ≤ st) :
    cutvid_commands vt ffind outdir mk = .error () := by
  simp only [cutvid_commands, if_pos hlen]
  exact multi_segment_cmds_error _ _ _ _ _ s hs (segment_opts_reject s st en hst hen hle)

/-- Witness for the amended C5: a two-segment task whose first segment has
`start = 10, end = 5` is rejected. -/
theorem claim_C5_witness :
    cutvid_commands ⟨[str "a.mp4"], str "out.mp4", none,
        [⟨some 10, some 5⟩, ⟨none, none⟩], none, none, true⟩ ffindEx outdirEx mkEx =
      .error () :=
  claim_C5_amended
    ⟨[str "a.mp4"], str "out.mp4", none, [⟨some 10, some 5⟩, ⟨none, none⟩], none, none, true⟩
    ffindEx outdirEx mkEx ⟨some 10, some 5⟩ (by decide) (by decide) 10 5 rfl rfl (by decide)

/-- C6 counterexample: in the multi-segment path a `start` of `0` is NOT
treated like an absent start — the code tests `is not None` there (cutvids.py
line 138), so the segment `(0, 5)` compiles to `-ss 0 -t 5` while `(-, 5)`
compiles to `-t 5`: the plans differ. -/
theorem claim_C6_counterexample :
    cutvid_commands ⟨[str "a.mp4"], str "out.mp4", none,
        [⟨some 0, some 5⟩, ⟨some 5, none⟩], none, none, true⟩ ffindEx outdirEx mkEx ≠
    cutvid_commands ⟨[str "a.mp4"], str "out.mp4", none,
        [⟨none, some 5⟩, ⟨some 5, none⟩], none, none, true⟩ ffindEx outdirEx mkEx := by
  decide

theorem truthyN_zeroToNone (x : Option Nat) : truthyN (zeroToNone x) = truthyN x := by
  cases x with
  | none => rfl
  | some n =>
    by_cases h : n = 0 <;> simp [zeroToNone, truthyN, h]

theorem getD_zeroToNone (x : Option Nat) : (zeroToNone x).getD 0 = x.getD 0 := by
  cases x with
  | none => rfl
  | some n =>
    by_cases h : n = 0 <;> simp [zeroToNone, h]

/-- In the single-segment paths every access to the bounds goes through
Python truthiness (`if start:` …), so replacing a `some 0` bound by `none`
does not change the produced plan. -/
theorem single_segment_cmds_zero (input_files : List Str) (output_fn ext : Str)
    (bv : Option Nat) (st en : Option Nat) (mk : Str) :
    single_segment_cmds input_files output_fn ext bv (zeroToNone st) (zeroToNone en) mk =
      single_segment_cmds input_files output_fn ext bv st en mk := by
  simp only [single_segment_cmds, truthyN_zeroToNone, getD_zeroToNone]

/-- C6 amended: a zero-valued start or end is treated as "unspecified" in
the SINGLE-segment compilation paths (fast path and general path, which use
Python truthiness), but not in the multi-segment path, which tests
`is not None` and therefore distinguishes `0` from an absent bound (see the
counterexample). -/
theorem claim_C6_amended (vt : VideoTask) (ffind : Str → Str) (outdir mk : Str)
    (s : Segment) (hseg : vt.segments = [s]) :
    cutvid_commands
        {vt with segments := [⟨zeroToNone s.start, zeroToNone s.end_⟩]} ffind outdir mk =
      cutvid_commands vt ffind outdir mk := by
  cases vt
  simp only at hseg
  subst hseg
  simp only [cutvid_commands]
  exact single_segment_cmds_zero _ _ _ _ _ _ _

/-- Witness for the amended C6: a `(0, 0)` single segment compiles exactly
like an unbounded one. -/
theorem claim_C6_witness :
    cutvid_commands ⟨[str "a.mp4"], str "out.mp4", none, [⟨zeroToNone (some 0),
        zeroToNone (some 0)⟩], none, none, true⟩ ffindEx outdirEx mkEx =
      cutvid_commands ⟨[str "a.mp4"], str "out.mp4", none, [⟨some 0, some 0⟩],
        none, none, true⟩ ffindEx outdirEx mkEx :=
  claim_C6_amended
    ⟨[str "a.mp4"], str "out.mp4", none, [⟨some 0, some 0⟩], none, none, true⟩
    ffindEx outdirEx mkEx ⟨some 0, some 0⟩ rfl

/-- C8: with a non-empty `segments` list in the extras, a truthy positional
`start` or `end` (a value other than the unspecified sentinel — where, per
the source's truthiness test and the spec's zero policy, `0` counts as
unspecified) is a fatal consistency error (`assert not start` /
`assert not end`, cutvids.py lines 88-89); without a `segments` list the
positional bounds are collapsed into a one-element segment list. -/
theorem claim_C8 :
    (∀ input_files output_file st en extra s ss,
      extra.segments = some (s :: ss) →
      (truthyN st = true ∨ truthyN en = true) →
      build_task input_files output_file st en extra = .error ())
    ∧ (∀ input_files output_file st en extra,
      (extra.segments = none ∨ extra.segments = some []) →
      build_task input_files output_file st en extra =
        .ok ⟨input_files, output_file, extra.description, [Segment.mk st en],
             extra.boost_volume, extra.privacy, extra.upload⟩) := by
  constructor
  · intro input_files output_file st en extra s ss hseg htruthy
    simp only [build_task, hseg]
    rcases h1 : truthyN st with _ | _
    · rcases h2 : truthyN en with _ | _
      · rcases htruthy with h | h
        · rw [h1] at h; exact absurd h (by simp)
        · rw [h2] at h; exact absurd h (by simp)
      · simp
    · simp
  · intro input_files output_file st en extra hseg
    rcases hseg with h | h <;> simp [build_task, h]

/-- Witness for C8: truthy positional start next to a non-empty segments
list is rejected. -/
theorem claim_C8_witness :
    build_task [str "a.mp4"] (str "out.mp4") (some 3) none
      ⟨none, none, some [⟨str "1", str "2"⟩], true, none⟩ = .error () :=
  claim_C8.1 [str "a.mp4"] (str "out.mp4") (some 3) none
    ⟨none, none, some [⟨str "1", str "2"⟩], true, none⟩ ⟨str "1", str "2"⟩ []
    rfl (Or.inl (by decide))

/-- Commands produced by the extraction loop, one per segment. -/
theorem segment_loop_length (input0 output_fn ext : Str) :
    ∀ (segs : List Segment) (opts0 : List Str) (i : Nat) cmds tmps files lo,
      segment_loop input0 output_fn ext opts0 i segs = .ok (cmds, tmps, files, lo) →
      cmds.length = segs.length := by
  intro segs
  induction segs with
  | nil =>
    intro opts0 i cmds tmps files lo h
    simp only [segment_loop] at h
    cases h
    rfl
  | cons a rest ih =>
    intro opts0 i cmds tmps files lo h
    simp only [segment_loop] at h
    split at h
    · exact absurd h (by simp)
    · split at h
      · exact absurd h (by simp)
      · rename_i hr
        simp only [Except.ok.injEq, Prod.mk.injEq] at h
        obtain ⟨hc, -, -, -⟩ := h
        rw [← hc]
        simp [ih _ _ _ _ _ _ hr]

/-- C7: a task with exactly 3 segments and one input file compiles to
exactly 3 extraction commands + 1 merge concat + 1 rename = 5 commands
without audio-gain, and 7 commands (adding the rename-to-filter-input and
the filter command) when `boost_volume` is truthy. -/
theorem claim_C7 (vt : VideoTask) (ffind : Str → Str) (outdir mk : Str)
    (plan : PlanResult) (h3 : vt.segments.length = 3) (h1 : vt.input_files.length = 1)
    (hok : cutvid_commands vt ffind outdir mk = .ok plan) :
    plan.commands.length = if truthyN vt.boost_volume then 7 else 5 := by
  obtain ⟨a, hmap⟩ : ∃ a, vt.input_files.map ffind = [a] :=
    List.length_eq_one.mp (by simp [h1])
  simp only [cutvid_commands, h3] at hok
  norm_num at hok
  rw [hmap] at hok
  simp only [multi_segment_cmds, idx0] at hok
  norm_num at hok
  split at hok
  · exact absurd hok (by simp)
  · rename_i hr
    split at hok <;> rename_i hb
    · simp only [Except.ok.injEq] at hok
      rw [← hok]
      simp [hb, segment_loop_length _ _ _ _ _ _ _ _ _ _ hr, h3]
    · simp only [Except.ok.injEq] at hok
      rw [← hok]
      simp [hb, segment_loop_length _ _ _ _ _ _ _ _ _ _ hr, h3]

/-- Witness for C7: a concrete 3-segment, one-input, audio-gain task whose
plan has 7 commands. -/
theorem claim_C7_witness :
    (cutvid_commands ⟨[str "a.mp4"], str "out.mp4", none,
        [⟨none, some 5⟩, ⟨some 5, some 9⟩, ⟨some 9, none⟩], some 2, none, true⟩
      ffindEx outdirEx mkEx).map (fun p => p.commands.length) = .ok 7 := by
  cases hok : cutvid_commands ⟨[str "a.mp4"], str "out.mp4", none,
      [⟨none, some 5⟩, ⟨some 5, some 9⟩, ⟨some 9, none⟩], some 2, none, true⟩
      ffindEx outdirEx mkEx with
  | error e => cases e; exact absurd hok (by decide)
  | ok plan =>
    have := claim_C7 ⟨[str "a.mp4"], str "out.mp4", none,
      [⟨none, some 5⟩, ⟨some 5, some 9⟩, ⟨some 9, none⟩], some 2, none, true⟩
      ffindEx outdirEx mkEx plan rfl rfl hok
    simpa [truthyN, Except.map] using this

/-- Cleanup never resurrects a path: absent before implies absent after. -/
theorem cleanup_tmpfiles_mono (removeFails : Str → Bool) :
    ∀ (l : List Str) (fs fs' : Str → Bool) (q : Str),
      cleanup_tmpfiles removeFails l fs = .ok fs' → fs q = false → fs' q = false := by
  intro l
  induction l with
  | nil =>
    intro fs fs' q h hq
    simp only [cleanup_tmpfiles, Except.ok.injEq] at h
    rw [← h]
    exact hq
  | cons p rest ih =>
    intro fs fs' q h hq
    simp only [cleanup_tmpfiles] at h
    split at h
    · split at h
      · exact absurd h (by simp)
      · refine ih _ _ q h ?_
        by_cases hpq : q = p <;> simp [hpq, hq]
    · exact ih _ _ q h hq

/-- When no registered path hits a non-ENOENT removal failure, the cleanup
pass succeeds and afterwards every registered path is absent. -/
theorem cleanup_tmpfiles_ok (removeFails : Str → Bool) :
    ∀ (l : List Str) (fs : Str → Bool), (∀ p ∈ l, removeFails p = false) →
      ∃ fs', cleanup_tmpfiles removeFails l fs = .ok fs' ∧ ∀ p ∈ l, fs' p = false := by
  intro l
  induction l with
  | nil => intro fs _; exact ⟨fs, rfl, by simp⟩
  | cons p rest ih =>
    intro fs hrf
    by_cases hp : fs p = true
    · have hrp : removeFails p = false := hrf p (by simp)
      obtain ⟨fs', hok, hall⟩ := ih (fun q => if q = p then false else fs q)
        (fun q hq => hrf q (by simp [hq]))
      refine ⟨fs', ?_, ?_⟩
      · simp only [cleanup_tmpfiles, hp, hrp]
        exact hok
      · intro q hq
        rcases List.mem_cons.mp hq with rfl | hq'
        · exact cleanup_tmpfiles_mono removeFails rest _ _ q hok (by simp)
        · exact hall q hq'
    · have hp' : fs p = false := by simpa using hp
      obtain ⟨fs', hok, hall⟩ := ih fs (fun q hq => hrf q (by simp [hq]))
      refine ⟨fs', ?_, ?_⟩
      · simp only [cleanup_tmpfiles, hp']
        exact hok
      · intro q hq
        rcases List.mem_cons.mp hq with rfl | hq'
        · exact cleanup_tmpfiles_mono removeFails rest _ _ q hok hp'
        · exact hall q hq'

/-- C2: for every compiler invocation that produced a plan, whatever prefix
`l` of the temp registry was populated when the stream ended (the whole
registry on full consumption, an earlier prefix when an error aborted it),
the `finally` cleanup over `l` (a) removes every registered path whenever
no removal hits a non-ENOENT failure, (b) swallows the removal of an
already-absent path, and (c) propagates any other removal failure as
fatal. -/
theorem claim_C2 (vt : VideoTask) (ffind : Str → Str) (outdir mk : Str)
    (plan : PlanResult) (hok : cutvid_commands vt ffind outdir mk = .ok plan)
    (l rest : List Str) (hpre : l ++ rest = plan.tmpfiles)
    (removeFails : Str → Bool) (fs : Str → Bool) :
    ((∀ p ∈ l, removeFails p = false) →
      ∃ fs', cleanup_tmpfiles removeFails l fs = .ok fs'
        ∧ ∀ p ∈ l, fs' p = false)
    ∧ (∀ (p : Str) (ps : List Str) (fs0 : Str → Bool), fs0 p = false →
        cleanup_tmpfiles removeFails (p :: ps) fs0 = cleanup_tmpfiles removeFails ps fs0)
    ∧ (∀ (p : Str) (ps : List Str) (fs0 : Str → Bool), fs0 p = true →
        removeFails p = true →
        cleanup_tmpfiles removeFails (p :: ps) fs0 = .error ()) := by
  refine ⟨fun h => cleanup_tmpfiles_ok removeFails l fs h, ?_, ?_⟩
  · intro p ps fs0 hp
    simp [cleanup_tmpfiles, hp]
  · intro p ps fs0 hp hrf
    simp [cleanup_tmpfiles, hp, hrf]

/-- Witness for C2: the concrete head-trim task registers exactly its
`.first_part` temporary, and the cleanup pass removes it. -/
theorem claim_C2_witness :
    ∃ fs', cleanup_tmpfiles (fun _ => false) [str "/out/v.mp4.first_part.mp4"]
        (fun _ => true) = .ok fs'
      ∧ ∀ p ∈ [str "/out/v.mp4.first_part.mp4"], fs' p = false :=
  (claim_C2 ⟨[str "a.mp4"], str "v.mp4", none, [⟨some 5, none⟩], none, none, true⟩
      ffindEx outdirEx mkEx
      ⟨[[str "ffmpeg", str "-i", str "/in/a.mp4", str "-y", str "-ss", str "5",
         str "-c", str "copy", str "/out/v.mp4.first_part.mp4"],
        [str "cp", str "--", str "/out/v.mp4.first_part.mp4", str "/out/v.mp4.part.mp4"],
        [str "mv", str "--", str "/out/v.mp4.part.mp4", str "/out/v.mp4"]],
       [str "/out/v.mp4.first_part.mp4"], []⟩
      (by decide) [str "/out/v.mp4.first_part.mp4"] [] (by decide)
      (fun _ => false) (fun _ => true)).1 (by decide)

theorem append_ne_nil_left (a b : Str) (ha : a ≠ []) : a ++ b ≠ [] := by
  intro h
  rw [List.append_eq_nil] at h
  exact ha h.1

theorem writes_only_tmp_ne (o : Str) (c : Cmd) (h : writes_only_tmp o c) :
    c.getLast? ≠ some o := by
  obtain ⟨suf, hsuf, hlast⟩ := h
  rw [hlast]
  intro heq
  injection heq with h2
  have hl := congrArg List.length h2
  rw [List.length_append] at hl
  have h0 : suf.length = 0 := by omega
  exact hsuf (List.length_eq_zero.mp h0)

/-- A command whose last argument is `o ++ p ++ e` with `p` nonempty
targets a suffixed variant of `o`. -/
theorem writes_only_tmp_of_target2 (o p e : Str) (hp : p ≠ []) (c : Cmd)
    (hlast : c.getLast? = some (o ++ p ++ e)) : writes_only_tmp o c :=
  ⟨p ++ e, append_ne_nil_left p e hp, by rw [hlast, List.append_assoc]⟩

/-- Every extraction command of the multi-segment loop targets a
`.segmentN`-suffixed variant of the destination. -/
theorem segment_loop_targets (input0 o e : Str) :
    ∀ (segs : List Segment) (opts0 : List Str) (i : Nat) cmds tmps files lo,
      segment_loop input0 o e opts0 i segs = .ok (cmds, tmps, files, lo) →
      ∀ c ∈ cmds, writes_only_tmp o c := by
  intro segs
  induction segs with
  | nil =>
    intro opts0 i cmds tmps files lo h c hc
    simp only [segment_loop, Except.ok.injEq, Prod.mk.injEq] at h
    obtain ⟨hc0, -⟩ := h
    rw [← hc0] at hc
    simp at hc
  | cons a rest ih =>
    intro opts0 i cmds tmps files lo h c hc
    simp only [segment_loop] at h
    split at h
    · exact absurd h (by simp)
    · split at h
      · exact absurd h (by simp)
      · rename_i hr
        simp only [Except.ok.injEq, Prod.mk.injEq] at h
        obtain ⟨hc0, -, -, -⟩ := h
        rw [← hc0] at hc
        rcases List.mem_cons.mp hc with rfl | hc'
        · refine writes_only_tmp_of_target2 o (str ".segment" ++ natStr i) e
            (append_ne_nil_left _ _ (by decide)) _ ?_
          rw [List.getLast?_append_cons]
          show some (o ++ str ".segment" ++ natStr i ++ e) =
            some (o ++ (str ".segment" ++ natStr i) ++ e)
          rw [List.append_assoc o]
        · exact ih _ _ _ _ _ _ hr c hc'

/-- Every command of the multi-segment path except the final rename targets
a suffixed variant of the destination, and the plan ends with the rename of
`.part` to the destination. -/
theorem multi_segment_cmds_targets (input_files : List Str) (o e : Str)
    (bv : Option Nat) (segments : List Segment) (plan : PlanResult)
    (hok : multi_segment_cmds input_files o e bv segments = .ok plan) :
    ∃ pre, plan.commands = pre ++ [[str "mv", str "--", o ++ str ".part" ++ e, o]]
      ∧ ∀ c ∈ pre, writes_only_tmp o c := by
  simp only [multi_segment_cmds] at hok
  split at hok
  · exact absurd hok (by simp)
  · split at hok
    · exact absurd hok (by simp)
    · rename_i hr
      have hwhole : ∀ c ∈ (if input_files.length > 1 then
          ([(_concat_cmd input_files (o ++ str ".whole" ++ e)).2.2],
           [o ++ str ".whole" ++ e, (_concat_cmd input_files (o ++ str ".whole" ++ e)).1],
           [(_concat_cmd input_files (o ++ str ".whole" ++ e)).2.1])
          else (([] : List Cmd), ([] : List Str), ([] : List (Str × Str)))).1,
          writes_only_tmp o c := by
        split
        · intro c hc
          rw [List.mem_singleton.mp hc]
          exact writes_only_tmp_of_target2 o (str ".whole") e (by decide) _ rfl
        · intro c hc
          simp at hc
      split at hok
      · simp only [Except.ok.injEq] at hok
        rw [← hok]
        refine ⟨_, rfl, ?_⟩
        intro c hc
        rcases List.mem_append.mp hc with hc | hc
        · rcases List.mem_append.mp hc with hc | hc
          · rcases List.mem_append.mp hc with hc | hc
            · exact hwhole c hc
            · exact segment_loop_targets _ _ _ _ _ _ _ _ _ _ hr c hc
          · rw [List.mem_singleton.mp hc]
            exact writes_only_tmp_of_target2 o (str ".part") e (by decide) _ rfl
        · rcases List.mem_cons.mp hc with rfl | hc
          · exact writes_only_tmp_of_target2 o (str ".filter_input") e (by decide) _ rfl
          · rw [List.mem_singleton.mp hc]
            refine writes_only_tmp_of_target2 o (str ".part") e (by decide) _ ?_
            rw [List.getLast?_append_cons]
            rfl
      · simp only [Except.ok.injEq] at hok
        rw [← hok]
        refine ⟨_, rfl, ?_⟩
        intro c hc
        rcases List.mem_append.mp hc with hc | hc
        · rcases List.mem_append.mp hc with hc | hc
          · exact hwhole c hc
          · exact segment_loop_targets _ _ _ _ _ _ _ _ _ _ hr c hc
        · rw [List.mem_singleton.mp hc]
          exact writes_only_tmp_of_target2 o (str ".part") e (by decide) _ rfl

/-- Every command of the single-segment paths except the final rename
targets a suffixed variant of the destination, and the plan ends with the
rename of `.part` to the destination. -/
theorem single_segment_cmds_targets (input_files : List Str) (o e : Str)
    (bv : Option Nat) (st en : Option Nat) (mk : Str) (plan : PlanResult)
    (hok : single_segment_cmds input_files o e bv st en mk = .ok plan) :
    ∃ pre, plan.commands = pre ++ [[str "mv", str "--", o ++ str ".part" ++ e, o]]
      ∧ ∀ c ∈ pre, writes_only_tmp o c := by
  simp only [single_segment_cmds] at hok
  split at hok
  · exact absurd hok (by simp)
  · split at hok
    · simp only [Except.ok.injEq] at hok
      rw [← hok]
      refine ⟨[[str "ffmpeg", str "-noaccurate_seek", str "-i", input_files.headD [],
        str "-y", str "-ss", natStr (st.getD 0), str "-c", str "copy",
        str "-t", intStr ((en.getD 0 : Int) - (st.getD 0 : Int)),
        str "-avoid_negative_ts", str "make_zero", o ++ str ".part" ++ e]], rfl, ?_⟩
      intro c hc
      rw [List.mem_singleton.mp hc]
      exact writes_only_tmp_of_target2 o (str ".part") e (by decide) _ rfl
    · split at hok
      · exact absurd hok (by simp)
      · rename_i cmds1 tmps1 files1 hst1
        split at hok
        · exact absurd hok (by simp)
        · rename_i cmds2 tmps2 files2 hst2
          have hcm1 : ∀ c ∈ cmds1, writes_only_tmp o c := by
            split at hst1
            · split at hst1
              · exact absurd hst1 (by simp)
              · simp only [Except.ok.injEq, Prod.mk.injEq] at hst1
                obtain ⟨hc0, -, -⟩ := hst1
                intro c hc
                rw [← hc0] at hc
                rw [List.mem_singleton.mp hc]
                exact writes_only_tmp_of_target2 o (str ".first_part") e (by decide) _ rfl
            · simp only [Except.ok.injEq, Prod.mk.injEq] at hst1
              obtain ⟨hc0, -, -⟩ := hst1
              intro c hc
              rw [← hc0] at hc
              simp at hc
          have hcm2 : ∀ c ∈ cmds2, writes_only_tmp o c := by
            split at hst2
            · split at hst2
              · exact absurd hst2 (by simp)
              · simp only [Except.ok.injEq, Prod.mk.injEq] at hst2
                obtain ⟨hc0, -, -⟩ := hst2
                intro c hc
                rw [← hc0] at hc
                rw [List.mem_singleton.mp hc]
                exact writes_only_tmp_of_target2 o (str ".end_part") e (by decide) _ rfl
            · simp only [Except.ok.injEq, Prod.mk.injEq] at hst2
              obtain ⟨hc0, -, -⟩ := hst2
              intro c hc
              rw [← hc0] at hc
              simp at hc
          split at hok
          · simp only [Except.ok.injEq] at hok
            rw [← hok]
            refine ⟨cmds1 ++ cmds2 ++
              [[str "cp", str "--", files2.headD [], o ++ str ".part" ++ e]],
              by simp [List.append_assoc], ?_⟩
            intro c hc
            rcases List.mem_append.mp hc with hc | hc
            · rcases List.mem_append.mp hc with hc | hc
              · exact hcm1 c hc
              · exact hcm2 c hc
            · rw [List.mem_singleton.mp hc]
              exact writes_only_tmp_of_target2 o (str ".part") e (by decide) _ rfl
          · simp only [Except.ok.injEq] at hok
            rw [← hok]
            refine ⟨cmds1 ++ cmds2 ++
              [[str "ffmpeg", str "-y", str "-safe", str "0", str "-f",
                str "concat", str "-i", mk, str "-c", str "copy",
                o ++ str ".part" ++ e]],
              by simp [List.append_assoc], ?_⟩
            intro c hc
            rcases List.mem_append.mp hc with hc | hc
            · rcases List.mem_append.mp hc with hc | hc
              · exact hcm1 c hc
              · exact hcm2 c hc
            · rw [List.mem_singleton.mp hc]
              exact writes_only_tmp_of_target2 o (str ".part") e (by decide) _ rfl

/-- C1: in every successfully compiled plan the final command is the rename
of the `.part` temporary to the externally visible destination path, every
earlier command's output argument is the destination path extended by a
nonempty suffix (a temporary), and consequently no command before the final
rename targets the destination — no proper prefix of the plan ever writes
the destination file. -/
theorem claim_C1 (vt : VideoTask) (ffind : Str → Str) (outdir mk : Str)
    (plan : PlanResult) (hok : cutvid_commands vt ffind outdir mk = .ok plan) :
    ∃ pre, plan.commands =
        pre ++ [[str "mv", str "--",
          pathJoin outdir vt.output_file ++ str ".part" ++ extOf vt.output_file,
          pathJoin outdir vt.output_file]]
      ∧ (∀ c ∈ pre, writes_only_tmp (pathJoin outdir vt.output_file) c)
      ∧ (∀ c ∈ pre, c.getLast? ≠ some (pathJoin outdir vt.output_file)) := by
  simp only [cutvid_commands] at hok
  split at hok
  · obtain ⟨pre, h1, h2⟩ := multi_segment_cmds_targets _ _ _ _ _ _ hok
    exact ⟨pre, h1, h2, fun c hc => writes_only_tmp_ne _ c (h2 c hc)⟩
  · split at hok
    · exact absurd hok (by simp)
    · obtain ⟨pre, h1, h2⟩ := single_segment_cmds_targets _ _ _ _ _ _ _ _ hok
      exact ⟨pre, h1, h2, fun c hc => writes_only_tmp_ne _ c (h2 c hc)⟩

/-- Witness for C1 at the concrete unbounded single-input task. -/
theorem claim_C1_witness :
    ∃ pre, ([[str "cp", str "--", str "/in/a.mp4", str "/out/v.mp4.part.mp4"],
             [str "mv", str "--", str "/out/v.mp4.part.mp4", str "/out/v.mp4"]] : List Cmd) =
        pre ++ [[str "mv", str "--",
          pathJoin outdirEx (str "v.mp4") ++ str ".part" ++ extOf (str "v.mp4"),
          pathJoin outdirEx (str "v.mp4")]]
      ∧ (∀ c ∈ pre, writes_only_tmp (pathJoin outdirEx (str "v.mp4")) c)
      ∧ (∀ c ∈ pre, c.getLast? ≠ some (pathJoin outdirEx (str "v.mp4"))) :=
  claim_C1 ⟨[str "a.mp4"], str "v.mp4", none, [⟨none, none⟩], none, none, true⟩
    ffindEx outdirEx mkEx
    ⟨[[str "cp", str "--", str "/in/a.mp4", str "/out/v.mp4.part.mp4"],
      [str "mv", str "--", str "/out/v.mp4.part.mp4", str "/out/v.mp4"]], [], []⟩
    (by decide)

end Cutvids
